import Mathlib

/-!
Verification of the outbound packet queue of hr20-esp12-master
(`src/packetqueue.h`): slot reservation with coalescing and aging,
freeze-for-send with MAC and encryption, and per-byte drain.

Machine integers: `uint8_t` values are `Nat` taken mod 256 where the code
converts, the `int8_t` slot field `addr` is an `Int` (its C promotion to
`int` in comparisons is value-preserving), `time_t` is `Int`.
-/

namespace HR20

/-- Modelled from the spec: `ShortQ<N>` lives in `queue.h`, which is not
under `src/`. The spec describes it as a bounded FIFO of octets with
head-at-zero storage: `push` appends when `free_size() > 0` and fails
silently otherwise, `peek`/`pop` act on the oldest byte, `clear` resets to
empty, `data()`/`size()` expose the occupied range, and
`free_size() = capacity - count`. -/
structure ShortQ where
  cap : Nat
  buf : List Nat
deriving DecidableEq

/-- Modelled from the spec: push appends one byte if there is room,
otherwise it is a silent no-op. The stored value is the byte value of the
pushed argument (conversion to `uint8_t`). -/
def ShortQ.push (q : ShortQ) (b : Nat) : ShortQ :=
  if q.buf.length < q.cap then { q with buf := q.buf ++ [b % 256] } else q

/-- Modelled from the spec: the oldest byte (only used on nonempty buffers). -/
def ShortQ.peekByte (q : ShortQ) : Nat := q.buf.headD 0

/-- Modelled from the spec: drop the oldest byte. -/
def ShortQ.popByte (q : ShortQ) : ShortQ := { q with buf := q.buf.tail }

/-- Modelled from the spec: reset to empty. -/
def ShortQ.clear (q : ShortQ) : ShortQ := { q with buf := [] }

/-- Modelled from the spec: `free_size() = capacity - count`. -/
def ShortQ.free_size (q : ShortQ) : Nat := q.cap - q.buf.length

/-- Modelled from the spec: emptiness test. -/
def ShortQ.isEmptyQ (q : ShortQ) : Bool := q.buf.isEmpty

/-- Push a list of bytes one by one (used for the MAC facade writing its
tag into the `cmac` buffer). -/
def ShortQ.pushList (q : ShortQ) : List Nat → ShortQ
  | [] => q
  | b :: bs => (q.push b).pushList bs

/-- Modelled from the spec: the crypto facade (`crypto.h` is not under
`src/`). `cmac_fill` writes a fixed-size authentication tag computed from
a byte range, `encrypt_decrypt` transforms a byte range in place. The
core treats both as opaque, so they are arbitrary functions here; the
in-place write is modelled by reducing each produced byte mod 256. -/
structure Crypto where
  mac : List Nat → List Nat
  enc : List Nat → List Nat

/-- Conversion of a `uint8_t` value (0..255) to `int8_t`, as performed by
the assignment `it.addr = addr` in `want_to_send_for` (wrap-around). -/
def toInt8 (n : Nat) : Int :=
  if n % 256 < 128 then ((n % 256 : Nat) : Int) else ((n % 256 : Nat) : Int) - 256

/-- `PACKET_QUEUE_LEN` from `packetqueue.h`. -/
def PACKET_QUEUE_LEN : Nat := 32

/-- `SENT_PACKET_LEN` from `packetqueue.h`. -/
def SENT_PACKET_LEN : Nat := 76

/-- `SYNC_ADDR = 0x21` from `packetqueue.h`, as the `int` value it
promotes to in comparisons. -/
def SYNC_ADDR : Nat := 0x21

/-- One slot of the packet table (`PacketQ::Item`): a signed 8-bit
destination tag, the payload buffer, and the population time. -/
structure Item where
  addr : Int
  packet : ShortQ
  time : Int
deriving DecidableEq

instance : Inhabited Item := ⟨⟨-1, ⟨SENT_PACKET_LEN, []⟩, 0⟩⟩

/-- `Item::clear()`: reset `addr` to -1, `time` to 0, empty the buffer. -/
def Item.clearItem (it : Item) : Item :=
  { addr := -1, packet := it.packet.clear, time := 0 }

/-- The queue state (`PacketQ`): the 32-slot table, the frozen-slot
pointer (modelled as an index), the 5-byte prologue buffer, the 6-byte
cmac buffer and the configured maximum packet age. -/
structure PacketQ where
  que : List Item
  sending : Option Nat
  prologue : ShortQ
  cmac : ShortQ
  packet_max_age : Int
deriving DecidableEq

/-- The initial state of a freshly constructed `PacketQ`. -/
def PacketQ.init (maxAge : Int) : PacketQ :=
  { que := List.replicate PACKET_QUEUE_LEN ⟨-1, ⟨SENT_PACKET_LEN, []⟩, 0⟩
  , sending := none
  , prologue := ⟨5, []⟩
  , cmac := ⟨6, []⟩
  , packet_max_age := maxAge }

/-- Result of `want_to_send_for`: the returned packet pointer is either a
coalesced append into slot `ri`, a freshly claimed slot `ri`, or the null
pointer (queue full). -/
inductive WtsfResult where
  | append (ri : Nat)
  | claimed (ri : Nat)
  | full
deriving DecidableEq

/-- The mutation performed on a claimed slot: set `addr` (an `int8_t`
assignment) and `time`, clear the buffer, and push the address byte
unless the address is `SYNC_ADDR`. -/
def claimIt (a : Nat) (t : Int) (it : Item) : Item :=
  let cleared : ShortQ := it.packet.clear
  { addr := toInt8 a
  , packet := if a ≠ SYNC_ADDR then cleared.push a else cleared
  , time := t }

/-- The scan loop of `want_to_send_for`: with fuel `n+1` it examines slot
index `n`, so fuel 32 walks indices 31, 30, ..., 0 (the reverse walk of
the source). Rule 1 (coalesce) and rule 2 (free or stale) exactly as in
the code. -/
def wtsfGo (a bytes : Nat) (t maxAge : Int) : List Item → Nat → WtsfResult × List Item
  | que, 0 => (.full, que)
  | que, n + 1 =>
    let it := que.getD n default
    if a ≠ SYNC_ADDR ∧ it.addr = (a : Int) ∧ bytes < it.packet.free_size then
      (.append n, que)
    else if it.addr = -1 ∨ it.time + maxAge < t then
      (.claimed n, que.set n (claimIt a t it))
    else
      wtsfGo a bytes t maxAge que n

/-- `PacketQ::want_to_send_for(addr, bytes, curtime)`. The `uint8_t`
parameters are reduced mod 256 on entry. -/
def want_to_send_for (q : PacketQ) (addr bytes : Nat) (curtime : Int) :
    WtsfResult × PacketQ :=
  let r := wtsfGo (addr % 256) (bytes % 256) curtime q.packet_max_age q.que PACKET_QUEUE_LEN
  (r.1, { q with que := r.2 })

/-- The scan loop of `prepare_to_send_to`: walk indices `i`, `i+1`, ...
(fuel many) and return the first index whose slot `addr` equals the
requested address (`int8_t` vs `uint8_t` comparison, both promoted). -/
def prepGo (que : List Item) (a : Nat) : Nat → Nat → Option Nat
  | 0, _ => none
  | fuel + 1, i =>
    if (que.getD i default).addr = (a : Int) then some i
    else prepGo que a fuel (i + 1)

/-- The slot index `prepare_to_send_to(addr)` would freeze, if any. -/
def prep_select (q : PacketQ) (addr : Nat) : Option Nat :=
  prepGo q.que (addr % 256) PACKET_QUEUE_LEN 0

/-- The freeze work of `prepare_to_send_to` on the matched slot `j`:
record `sending`, set the slot tag to -2, fill the cmac buffer from the
plaintext payload, build the 5-byte prologue (the length byte is
`(packet.size() + cmac.size()) | (isSync ? 0x80 : 0)` truncated to a
byte by the push), append the two 0xAA fillers, and encrypt the payload
in place unless the frame is sync. -/
def applyFreeze (c : Crypto) (q : PacketQ) (j : Nat) : PacketQ :=
  let it := q.que.getD j default
  let isSync := it.addr = (SYNC_ADDR : Int)
  let p := it.packet.buf
  let cmac1 := (ShortQ.clear q.cmac).pushList (c.mac p)
  let lenByte : Nat := (p.length + cmac1.buf.length) ||| (if isSync then 0x80 else 0)
  let prologue1 := ((((((ShortQ.clear q.prologue).push 0xaa).push 0xaa).push 0x2d).push 0xd4).push lenByte)
  let cmac2 := (cmac1.push 0xAA).push 0xAA
  let packet1 := if isSync then it.packet else { it.packet with buf := (c.enc p).map (· % 256) }
  { q with
    que := q.que.set j { addr := -2, packet := packet1, time := it.time }
  , sending := some j
  , prologue := prologue1
  , cmac := cmac2 }

/-- `PacketQ::prepare_to_send_to(addr)`: fail if a frame is already
frozen, otherwise freeze the first slot matching the address. -/
def prepare_to_send_to (c : Crypto) (q : PacketQ) (addr : Nat) : Bool × PacketQ :=
  if q.sending.isSome then (false, q)
  else
    match prep_select q addr with
    | none => (false, q)
    | some j => (true, applyFreeze c q j)

/-- `PacketQ::peek()`: -1 when no frame is in flight, otherwise the head
of the first nonempty of prologue, frozen payload, cmac, else -1. -/
def PacketQ.peek (q : PacketQ) : Int :=
  match q.sending with
  | none => -1
  | some j =>
    if q.prologue.isEmptyQ = false then (q.prologue.peekByte : Int)
    else if ((q.que.getD j default).packet.isEmptyQ) = false then
      (((q.que.getD j default).packet.peekByte : Nat) : Int)
    else if q.cmac.isEmptyQ = false then (q.cmac.peekByte : Int)
    else -1

/-- `PacketQ::pop()`: drain one byte from the first nonempty stage; when
the cmac buffer is (or becomes) empty, clear the framing buffers, clear
the frozen slot, release `sending` and report end of frame. -/
def PacketQ.pop (q : PacketQ) : Bool × PacketQ :=
  match q.sending with
  | none => (false, q)
  | some j =>
    if q.prologue.isEmptyQ = false then
      (true, { q with prologue := q.prologue.popByte })
    else if ((q.que.getD j default).packet.isEmptyQ) = false then
      let it := q.que.getD j default
      (true, { q with que := q.que.set j { it with packet := it.packet.popByte } })
    else
      let cmac1 := if q.cmac.isEmptyQ = false then q.cmac.popByte else q.cmac
      if cmac1.isEmptyQ then
        (false,
          { q with
            prologue := q.prologue.clear
          , que := q.que.set j ((q.que.getD j default).clearItem)
          , cmac := cmac1.clear
          , sending := none })
      else
        (true, { q with cmac := cmac1 })

/-- The byte sequence produced by repeatedly calling `peek` then `pop`
until `pop` reports end of frame (the fuel bounds the number of
iterations; it is instantiated with the exact frame length). -/
def drainTrace : PacketQ → Nat → List Int × PacketQ
  | q, 0 => ([], q)
  | q, fuel + 1 =>
    let b := q.peek
    let r := q.pop
    if r.1 then
      let rest := drainTrace r.2 fuel
      (b :: rest.1, rest.2)
    else ([b], r.2)

/-- A slot that is neither free (-1) nor frozen (-2). -/
def openSlot (it : Item) : Prop := it.addr ≠ -1 ∧ it.addr ≠ -2

instance (it : Item) : Decidable (openSlot it) := by
  unfold openSlot; infer_instance

/-- The distinctness invariant of the spec: no two open slots share the
same non-SYNC `addr` value. -/
def distinctOpen (que : List Item) : Prop :=
  ∀ i, i < que.length → ∀ k, k < que.length → i ≠ k →
    openSlot (que.getD i default) → openSlot (que.getD k default) →
    (que.getD i default).addr ≠ (SYNC_ADDR : Int) →
    (que.getD i default).addr ≠ (que.getD k default).addr

instance (que : List Item) : Decidable (distinctOpen que) := by
  unfold distinctOpen
  exact @Nat.decidableBallLT _ _
    (fun i hi => @Nat.decidableBallLT _ _ (fun k hk => inferInstance))

/-- The number of frame bytes still to be drained. -/
def remBytes (q : PacketQ) : Nat :=
  q.prologue.buf.length +
    (match q.sending with
     | some j => (q.que.getD j default).packet.buf.length
     | none => 0) +
    q.cmac.buf.length

/-- A concrete crypto facade (4-byte little-endian sum MAC, xor-0xFF
stream cipher), in the style of the mock of spec scenario 6. -/
def mockCrypto : Crypto :=
  { mac := fun l => [(l.foldl (· + ·) 0) % 256, ((l.foldl (· + ·) 0) / 256) % 256, 0, 0]
  , enc := fun l => l.map (fun b => b ^^^ 0xFF) }

/-- Upper layers writing payload bytes into the buffer returned by
`want_to_send_for` (used to build concrete states). -/
def pushInto (q : PacketQ) (j : Nat) (bs : List Nat) : PacketQ :=
  { q with
    que := q.que.set j
      (let it := q.que.getD j default
       { it with packet := it.packet.pushList bs }) }

/-- A state whose slot 31 is frozen (addr -2, referenced by `sending`)
with population time 0, under `packet_max_age = 1`: the concrete state
showing that the staleness disjunct of rule 2 ignores the frozen tag. -/
def frozenStaleQ : PacketQ :=
  { que := (List.replicate 31 (⟨-1, ⟨SENT_PACKET_LEN, []⟩, 0⟩ : Item)) ++
      [⟨-2, ⟨SENT_PACKET_LEN, [5, 17]⟩, 0⟩]
  , sending := some 31
  , prologue := ⟨5, [0xaa]⟩
  , cmac := ⟨6, [1, 2, 3, 0xAA, 0xAA]⟩
  , packet_max_age := 1 }

/-- Two reserves for address 5 where the second finds the existing slot
too full (`bytes = 255`): the second call claims a fresh slot, leaving
two open slots bound to address 5. -/
def dupState : PacketQ :=
  (want_to_send_for (want_to_send_for (PacketQ.init 60) 5 0 0).2 5 255 0).2

/-- Reserve address 7 at time 0, then address 5 at time 50 (slot 30, with
75 free bytes): at time 61 slot 31 is stale while slot 30 is a perfectly
coalescible slot for address 5. -/
def staleAboveState : PacketQ :=
  (want_to_send_for (want_to_send_for (PacketQ.init 60) 7 0 0).2 5 0 50).2

/-- One reserve for the broadcast address: slot 31 holds a sync packet
with an empty payload (sync packets get no address byte). -/
def syncState : PacketQ :=
  (want_to_send_for (PacketQ.init 60) SYNC_ADDR 0 0).2

/-- One reserve for client address 5: slot 31 holds payload `[5]`. -/
def oneSlotState : PacketQ :=
  (want_to_send_for (PacketQ.init 60) 5 0 0).2

theorem getD_set_self {α : Type} [Inhabited α] (l : List α) (j : Nat) (a : α)
    (h : j < l.length) : (l.set j a).getD j default = a := by
  simp [List.getD, List.getElem?_set, h]

theorem getD_set_ne {α : Type} [Inhabited α] (l : List α) (i j : Nat) (a : α)
    (h : i ≠ j) : (l.set i a).getD j default = l.getD j default := by
  simp [List.getD, List.getElem?_set, h]

theorem getD_set_self' {α : Type} [Inhabited α] (l : List α) (j : Nat) (a : α)
    (h : j < l.length) : ((l.set j a)[j]?).getD default = a := by
  simpa [List.getD] using getD_set_self l j a h

theorem map_mod_id : ∀ l : List Nat, (∀ b ∈ l, b < 256) → l.map (· % 256) = l := by
  intro l h
  induction l with
  | nil => rfl
  | cons b bs ih =>
    simp only [List.map_cons, List.cons.injEq]
    exact ⟨Nat.mod_eq_of_lt (h b (by simp)), ih fun x hx => h x (by simp [hx])⟩

theorem pushList_cap : ∀ (l : List Nat) (q : ShortQ), (q.pushList l).cap = q.cap := by
  intro l
  induction l with
  | nil => intro q; rfl
  | cons b bs ih =>
    intro q
    rw [ShortQ.pushList, ih]
    unfold ShortQ.push
    split <;> rfl

theorem pushList_buf : ∀ (l : List Nat) (q : ShortQ),
    q.buf.length + l.length ≤ q.cap →
    (q.pushList l).buf = q.buf ++ l.map (· % 256) := by
  intro l
  induction l with
  | nil => intro q _; simp [ShortQ.pushList]
  | cons b bs ih =>
    intro q h
    rw [ShortQ.pushList]
    have hlt : q.buf.length < q.cap := by simp at h; omega
    have hpush : q.push b = { q with buf := q.buf ++ [b % 256] } := by
      unfold ShortQ.push; rw [if_pos hlt]
    rw [hpush, ih]
    · simp
    · simp at h ⊢; omega

theorem lor_128 (x : Nat) (h : x < 128) : x ||| 128 = x + 128 := by
  interval_cases x <;> rfl

/-- C1: the claim states that a frozen slot (`addr = -2`) is never
selected by `want_to_send_for`. The code violates it: the staleness
disjunct of rule 2 does not test the frozen tag, so a stale frozen slot
is claimed and its address, time and packet buffer are clobbered while
`sending` still points at it. Concretely, with slot 31 frozen at time 0
under `packet_max_age = 1`, a call at time 10 claims slot 31. -/
theorem frozen_slot_claimed_when_stale :
    (frozenStaleQ.que.getD 31 default).addr = -2 ∧
    frozenStaleQ.sending = some 31 ∧
    (want_to_send_for frozenStaleQ 5 0 10).1 = .claimed 31 ∧
    ((want_to_send_for frozenStaleQ 5 0 10).2.que.getD 31 default).addr = 5 ∧
    ((want_to_send_for frozenStaleQ 5 0 10).2.que.getD 31 default).packet.buf = [5] := by
  decide

/-- C8: when a frame is already frozen (`sending` non-null),
`prepare_to_send_to` returns false and performs no state change at all. -/
theorem prepare_while_busy (c : Crypto) (q : PacketQ) (j : Nat) (addr : Nat)
    (h : q.sending = some j) : prepare_to_send_to c q addr = (false, q) := by
  simp [prepare_to_send_to, h]

theorem prepare_while_busy_witness :
    frozenStaleQ.sending = some 31 ∧
    prepare_to_send_to mockCrypto frozenStaleQ 5 = (false, frozenStaleQ) :=
  ⟨rfl, prepare_while_busy mockCrypto frozenStaleQ 31 5 rfl⟩

/-- C10: when no frame is in flight (`sending` null), `pop` returns false
and leaves the whole state unchanged. -/
theorem pop_without_frame (q : PacketQ) (h : q.sending = none) :
    q.pop = (false, q) := by
  simp [PacketQ.pop, h]

theorem pop_without_frame_witness :
    (PacketQ.init 60).sending = none ∧
    (PacketQ.init 60).pop = (false, PacketQ.init 60) :=
  ⟨rfl, pop_without_frame (PacketQ.init 60) rfl⟩

theorem prepGo_sound (que : List Item) (a : Nat) :
    ∀ (fuel i j : Nat), prepGo que a fuel i = some j →
      (que.getD j default).addr = (a : Int) := by
  intro fuel
  induction fuel with
  | zero => intro i j h; simp [prepGo] at h
  | succ n ih =>
    intro i j h
    simp only [prepGo] at h
    split at h
    · cases h; assumption
    · exact ih (i + 1) j h

theorem wtsfGo_claimed (a bytes : Nat) (t m : Int) (que : List Item) :
    ∀ (n j : Nat) (que' : List Item),
      wtsfGo a bytes t m que n = (.claimed j, que') →
      j < n ∧ que' = que.set j (claimIt a t (que.getD j default)) ∧
      ((que.getD j default).addr = -1 ∨ (que.getD j default).time + m < t) := by
  intro n
  induction n with
  | zero => intro j que' h; simp [wtsfGo] at h
  | succ n ih =>
    intro j que' h
    simp only [wtsfGo] at h
    split at h
    · simp at h
    · split at h
      · rename_i hcond
        obtain ⟨h1, h2⟩ := Prod.mk.injEq .. ▸ h
        cases h1
        exact ⟨Nat.lt_succ_self n, h2.symm ▸ rfl, hcond⟩
      · obtain ⟨hj, h2, h3⟩ := ih j que' h
        exact ⟨Nat.lt_succ_of_lt hj, h2, h3⟩

theorem wtsfGo_que_cases (a bytes : Nat) (t m : Int) (que : List Item) :
    ∀ n : Nat,
      (wtsfGo a bytes t m que n).2 = que ∨
      ∃ j, j < n ∧ (wtsfGo a bytes t m que n).2 =
        que.set j (claimIt a t (que.getD j default)) := by
  intro n
  induction n with
  | zero => exact Or.inl rfl
  | succ n ih =>
    simp only [wtsfGo]
    split
    · exact Or.inl rfl
    · split
      · exact Or.inr ⟨n, Nat.lt_succ_self n, rfl⟩
      · rcases ih with h | ⟨j, hj, h⟩
        · exact Or.inl h
        · exact Or.inr ⟨j, Nat.lt_succ_of_lt hj, h⟩

theorem wtsfGo_first_append (a bytes : Nat) (t m : Int) (que : List Item) (j : Nat)
    (hsync : a ≠ SYNC_ADDR)
    (hmatch : (que.getD j default).addr = (a : Int))
    (hspace : bytes < (que.getD j default).packet.free_size) :
    ∀ n : Nat, j < n →
      (∀ i, j < i → i < n →
        ¬((que.getD i default).addr = (a : Int) ∧
            bytes < (que.getD i default).packet.free_size) ∧
        (que.getD i default).addr ≠ -1 ∧
        ¬((que.getD i default).time + m < t)) →
      wtsfGo a bytes t m que n = (.append j, que) := by
  intro n
  induction n with
  | zero => intro h; omega
  | succ n ih =>
    intro hjn habove
    rcases Nat.lt_succ_iff_lt_or_eq.mp hjn with hlt | heq
    · have hn := habove n hlt (Nat.lt_succ_self n)
      have hc1 : ¬(a ≠ SYNC_ADDR ∧ (que.getD n default).addr = (a : Int) ∧
          bytes < (que.getD n default).packet.free_size) := by
        rintro ⟨-, h2, h3⟩
        exact hn.1 ⟨h2, h3⟩
      have hc2 : ¬((que.getD n default).addr = -1 ∨
          (que.getD n default).time + m < t) := by
        rintro (h | h)
        · exact hn.2.1 h
        · exact hn.2.2 h
      simp only [wtsfGo]
      rw [if_neg hc1, if_neg hc2]
      exact ih hlt fun i h1 h2 => habove i h1 (Nat.lt_succ_of_lt h2)
    · subst heq
      simp only [wtsfGo]
      rw [if_pos ⟨hsync, hmatch, hspace⟩]

/-- C9: `prepare_to_send_to` can never select a free (`addr = -1`) or
frozen (`addr = -2`) slot, for any 8-bit address argument: the signed
slot field promoted to `int` equals the unsigned argument only when it
is nonnegative. Consequently every free or frozen slot is left untouched
by the call. -/
theorem prepare_never_matches_sentinel (c : Crypto) (q : PacketQ) (addr j : Nat)
    (hsel : prep_select q addr = some j) :
    (q.que.getD j default).addr ≠ -1 ∧ (q.que.getD j default).addr ≠ -2 ∧
    ∀ i, ((q.que.getD i default).addr = -1 ∨ (q.que.getD i default).addr = -2) →
      (prepare_to_send_to c q addr).2.que.getD i default = q.que.getD i default := by
  have hj := prepGo_sound q.que (addr % 256) PACKET_QUEUE_LEN 0 j hsel
  refine ⟨by rw [hj]; omega, by rw [hj]; omega, ?_⟩
  intro i hi
  unfold prepare_to_send_to
  split
  · rfl
  · rw [hsel]
    unfold applyFreeze
    simp only
    apply getD_set_ne
    intro hji
    rw [← hji, hj] at hi
    omega

theorem prepare_never_matches_sentinel_witness :
    prep_select staleAboveState 5 = some 30 ∧
    ((staleAboveState.que.getD 30 default).addr ≠ -1 ∧
     (staleAboveState.que.getD 30 default).addr ≠ -2 ∧
     ∀ i, ((staleAboveState.que.getD i default).addr = -1 ∨
           (staleAboveState.que.getD i default).addr = -2) →
       (prepare_to_send_to mockCrypto staleAboveState 5).2.que.getD i default =
         staleAboveState.que.getD i default) :=
  ⟨by decide, prepare_never_matches_sentinel mockCrypto staleAboveState 5 30 (by decide)⟩

/-- C6: a `want_to_send_for` call that claims a slot under rule 2 sets the
slot address to the requested address, its time to `curtime`, clears its
packet buffer and pushes the address as first byte iff the address is not
`SYNC_ADDR`; every other slot is untouched. In particular the first
plaintext payload byte of every non-SYNC packet is the destination
address. -/
theorem claimed_slot_contents (q : PacketQ) (a bytes : Nat) (t : Int) (j : Nat)
    (ha : a ≤ SYNC_ADDR)
    (hlen : q.que.length = PACKET_QUEUE_LEN)
    (hcap : 0 < (q.que.getD j default).packet.cap)
    (hres : (want_to_send_for q a bytes t).1 = .claimed j) :
    (want_to_send_for q a bytes t).2.que.getD j default =
      { addr := (a : Int)
      , packet := { cap := (q.que.getD j default).packet.cap
                  , buf := if a ≠ SYNC_ADDR then [a] else [] }
      , time := t } ∧
    ∀ i, i ≠ j →
      (want_to_send_for q a bytes t).2.que.getD i default = q.que.getD i default := by
  have ha256 : a % 256 = a := Nat.mod_eq_of_lt (by unfold SYNC_ADDR at ha; omega)
  unfold want_to_send_for at hres ⊢
  simp only at hres ⊢
  rw [ha256] at hres ⊢
  obtain ⟨hjn, hset, -⟩ :=
    wtsfGo_claimed a (bytes % 256) t q.packet_max_age q.que PACKET_QUEUE_LEN j
      _ (Prod.ext hres rfl)
  have hjlen : j < q.que.length := by rw [hlen]; exact hjn
  simp only [hset]
  constructor
  · rw [getD_set_self q.que j (claimIt a t (q.que.getD j default)) hjlen]
    unfold claimIt toInt8
    simp only [ha256]
    have h128 : a < 128 := by unfold SYNC_ADDR at ha; omega
    rw [if_pos h128]
    by_cases hs : a = SYNC_ADDR
    · rw [if_neg (by simp [hs]), if_neg (by simp [hs])]
      rfl
    · rw [if_pos hs, if_pos hs]
      unfold ShortQ.push ShortQ.clear
      simp only
      rw [if_pos (by simpa using hcap), ha256]
      rfl
  · intro i hij
    exact getD_set_ne q.que j i (claimIt a t (q.que.getD j default)) hij.symm

theorem claimed_slot_contents_witness :
    (5 ≤ SYNC_ADDR ∧
     (PacketQ.init 60).que.length = PACKET_QUEUE_LEN ∧
     0 < ((PacketQ.init 60).que.getD 31 default).packet.cap ∧
     (want_to_send_for (PacketQ.init 60) 5 0 0).1 = .claimed 31) ∧
    ((want_to_send_for (PacketQ.init 60) 5 0 0).2.que.getD 31 default =
      { addr := (5 : Int)
      , packet := { cap := ((PacketQ.init 60).que.getD 31 default).packet.cap
                  , buf := if 5 ≠ SYNC_ADDR then [5] else [] }
      , time := 0 } ∧
     ∀ i, i ≠ 31 →
       (want_to_send_for (PacketQ.init 60) 5 0 0).2.que.getD i default =
         (PacketQ.init 60).que.getD i default) :=
  ⟨⟨by decide, by decide, by decide, by decide⟩,
    claimed_slot_contents (PacketQ.init 60) 5 0 0 31
      (by decide) (by decide) (by decide) (by decide)⟩

/-- C7 counterexample: in the reachable state `staleAboveState`, slot 30
is bound to address 5 with 75 free bytes, yet `want_to_send_for 5` at
time 61 does not return slot 30: the scan first reaches the stale slot
31 and claims it, so the claim as stated is false. -/
theorem coalescing_not_unconditional :
    (staleAboveState.que.getD 30 default).addr = (5 : Int) ∧
    0 < (staleAboveState.que.getD 30 default).packet.free_size ∧
    (want_to_send_for staleAboveState 5 0 61).1 = .claimed 31 ∧
    (want_to_send_for staleAboveState 5 0 61).1 ≠ .append 30 := by
  decide

/-- C7 (amended): `want_to_send_for(a, bytes, curtime)` returns the buffer
of the slot bound to `a` for appending, leaving the whole state
unchanged, provided that slot is the first match of the reverse scan:
every slot at a higher index neither matches rule 1 for `a` nor is free
nor stale. Repeated reserves under these conditions therefore keep
returning the same slot. -/
theorem coalesce_returns_same_slot (q : PacketQ) (a bytes : Nat) (t : Int) (j : Nat)
    (hsync : a ≠ SYNC_ADDR) (ha : a < 256) (hb : bytes < 256)
    (hj : j < PACKET_QUEUE_LEN)
    (hmatch : (q.que.getD j default).addr = (a : Int))
    (hspace : bytes < (q.que.getD j default).packet.free_size)
    (habove : ∀ i, i < PACKET_QUEUE_LEN → j < i →
      ¬((q.que.getD i default).addr = (a : Int) ∧
          bytes < (q.que.getD i default).packet.free_size) ∧
      (q.que.getD i default).addr ≠ -1 ∧
      ¬((q.que.getD i default).time + q.packet_max_age < t)) :
    want_to_send_for q a bytes t = (.append j, q) := by
  unfold want_to_send_for
  rw [Nat.mod_eq_of_lt ha, Nat.mod_eq_of_lt hb]
  rw [wtsfGo_first_append a bytes t q.packet_max_age q.que j hsync hmatch hspace
    PACKET_QUEUE_LEN hj (fun i h1 h2 => habove i h2 h1)]

theorem coalesce_returns_same_slot_witness :
    ((5 : Nat) ≠ SYNC_ADDR ∧ (5 : Nat) < 256 ∧ (0 : Nat) < 256 ∧
     30 < PACKET_QUEUE_LEN ∧
     (staleAboveState.que.getD 30 default).addr = ((5 : Nat) : Int) ∧
     0 < (staleAboveState.que.getD 30 default).packet.free_size ∧
     (∀ i, i < PACKET_QUEUE_LEN → 30 < i →
       ¬((staleAboveState.que.getD i default).addr = ((5 : Nat) : Int) ∧
           0 < (staleAboveState.que.getD i default).packet.free_size) ∧
       (staleAboveState.que.getD i default).addr ≠ -1 ∧
       ¬((staleAboveState.que.getD i default).time + staleAboveState.packet_max_age < 60))) ∧
    want_to_send_for staleAboveState 5 0 60 = (.append 30, staleAboveState) :=
  ⟨⟨by decide, by decide, by decide, by decide, by decide, by decide, by decide⟩,
    coalesce_returns_same_slot staleAboveState 5 0 60 30
      (by decide) (by decide) (by decide) (by decide) (by decide) (by decide) (by decide)⟩

theorem prepGo_lt (que : List Item) (a : Nat) :
    ∀ (fuel i j : Nat), prepGo que a fuel i = some j → j < i + fuel := by
  intro fuel
  induction fuel with
  | zero => intro i j h; simp [prepGo] at h
  | succ n ih =>
    intro i j h
    simp only [prepGo] at h
    split at h
    · cases h; omega
    · have := ih (i + 1) j h; omega

theorem push_fits (q : ShortQ) (b : Nat) (h : q.buf.length < q.cap) :
    q.push b = { cap := q.cap, buf := q.buf ++ [b % 256] } := by
  unfold ShortQ.push
  rw [if_pos h]

theorem prepare_success (c : Crypto) (q : PacketQ) (a j : Nat)
    (hsend : q.sending = none) (hsel : prep_select q a = some j) :
    prepare_to_send_to c q a = (true, applyFreeze c q j) := by
  unfold prepare_to_send_to
  rw [hsend, hsel]
  simp

theorem applyFreeze_state (c : Crypto) (q : PacketQ) (j : Nat) (it : Item)
    (hit : q.que.getD j default = it)
    (hcmcap : q.cmac.cap = 6) (hprcap : q.prologue.cap = 5)
    (hjlen : j < q.que.length)
    (hmac : (c.mac it.packet.buf).length ≤ 4)
    (hmacb : ∀ b ∈ c.mac it.packet.buf, b < 256)
    (hplen : it.packet.buf.length ≤ SENT_PACKET_LEN) :
    (applyFreeze c q j).sending = some j ∧
    (applyFreeze c q j).cmac.buf = c.mac it.packet.buf ++ [0xAA, 0xAA] ∧
    (applyFreeze c q j).prologue.buf =
      [0xaa, 0xaa, 0x2d, 0xd4,
        (it.packet.buf.length + (c.mac it.packet.buf).length) |||
          (if it.addr = (SYNC_ADDR : Int) then 0x80 else 0)] ∧
    ((applyFreeze c q j).que.getD j default).packet =
      (if it.addr = (SYNC_ADDR : Int)
       then it.packet
       else { it.packet with buf := (c.enc it.packet.buf).map (· % 256) }) ∧
    ((applyFreeze c q j).que.getD j default).addr = -2 ∧
    ((applyFreeze c q j).que.getD j default).time = it.time ∧
    (applyFreeze c q j).que.length = q.que.length ∧
    (∀ i, i ≠ j → (applyFreeze c q j).que.getD i default = q.que.getD i default) := by
  have hclr : ShortQ.clear q.cmac = ⟨6, []⟩ := by
    unfold ShortQ.clear
    rw [hcmcap]
  have hclrP : ShortQ.clear q.prologue = ⟨5, []⟩ := by
    unfold ShortQ.clear
    rw [hprcap]
  have hX : ((ShortQ.clear q.cmac).pushList (c.mac it.packet.buf)).buf =
      c.mac it.packet.buf := by
    rw [hclr, pushList_buf _ _ (by simp; omega), map_mod_id _ hmacb]
    rfl
  have hXcap : ((ShortQ.clear q.cmac).pushList (c.mac it.packet.buf)).cap = 6 := by
    rw [hclr, pushList_cap]
  have hp1 : ((ShortQ.clear q.cmac).pushList (c.mac it.packet.buf)).push 0xAA =
      ⟨6, c.mac it.packet.buf ++ [0xAA]⟩ := by
    rw [push_fits _ _ (by rw [hX, hXcap]; omega), hX, hXcap]
  have hcm2 : (((ShortQ.clear q.cmac).pushList (c.mac it.packet.buf)).push 0xAA).push
      0xAA = { cap := 6, buf := c.mac it.packet.buf ++ [0xAA, 0xAA] } := by
    rw [hp1, push_fits _ _ (by simp; omega)]
    simp
  have hx80 : it.packet.buf.length + (c.mac it.packet.buf).length < 128 := by
    unfold SENT_PACKET_LEN at hplen
    omega
  have hlenByte : (it.packet.buf.length + (c.mac it.packet.buf).length) |||
      (if it.addr = (SYNC_ADDR : Int) then 0x80 else 0) < 256 := by
    by_cases hs : it.addr = (SYNC_ADDR : Int)
    · rw [if_pos hs, lor_128 _ hx80]; omega
    · rw [if_neg hs, Nat.or_zero]; omega
  have hpr : (((((⟨5, []⟩ : ShortQ).push 0xaa).push 0xaa).push 0x2d).push 0xd4).push
        ((it.packet.buf.length + (c.mac it.packet.buf).length) |||
          (if it.addr = (SYNC_ADDR : Int) then 0x80 else 0)) =
      ⟨5, [0xaa, 0xaa, 0x2d, 0xd4,
        (it.packet.buf.length + (c.mac it.packet.buf).length) |||
          (if it.addr = (SYNC_ADDR : Int) then 0x80 else 0)]⟩ := by
    have hb : ((⟨5, []⟩ : ShortQ).pushList
        [0xaa, 0xaa, 0x2d, 0xd4,
          (it.packet.buf.length + (c.mac it.packet.buf).length) |||
            (if it.addr = (SYNC_ADDR : Int) then 0x80 else 0)]).buf =
        [0xaa, 0xaa, 0x2d, 0xd4,
          (it.packet.buf.length + (c.mac it.packet.buf).length) |||
            (if it.addr = (SYNC_ADDR : Int) then 0x80 else 0)] := by
      rw [pushList_buf _ _ (by simp)]
      simp only [List.nil_append]
      apply map_mod_id
      intro b hb
      simp only [List.mem_cons, List.not_mem_nil, or_false] at hb
      rcases hb with h | h | h | h | h <;> subst h
      · omega
      · omega
      · omega
      · omega
      · exact hlenByte
    have hc : ((⟨5, []⟩ : ShortQ).pushList
        [0xaa, 0xaa, 0x2d, 0xd4,
          (it.packet.buf.length + (c.mac it.packet.buf).length) |||
            (if it.addr = (SYNC_ADDR : Int) then 0x80 else 0)]).cap = 5 :=
      pushList_cap _ _
    calc (((((⟨5, []⟩ : ShortQ).push 0xaa).push 0xaa).push 0x2d).push 0xd4).push
          ((it.packet.buf.length + (c.mac it.packet.buf).length) |||
            (if it.addr = (SYNC_ADDR : Int) then 0x80 else 0))
        = ⟨((⟨5, []⟩ : ShortQ).pushList
            [0xaa, 0xaa, 0x2d, 0xd4,
              (it.packet.buf.length + (c.mac it.packet.buf).length) |||
                (if it.addr = (SYNC_ADDR : Int) then 0x80 else 0)]).cap,
           ((⟨5, []⟩ : ShortQ).pushList
            [0xaa, 0xaa, 0x2d, 0xd4,
              (it.packet.buf.length + (c.mac it.packet.buf).length) |||
                (if it.addr = (SYNC_ADDR : Int) then 0x80 else 0)]).buf⟩ := rfl
      _ = _ := by rw [hb, hc]
  simp only [applyFreeze]
  rw [hit, hclrP, hX, hcm2, hpr]
  refine ⟨by trivial, by rfl, by rfl, ?_, ?_, ?_, by simp, ?_⟩
  · rw [getD_set_self _ _ _ hjlen]
  · rw [getD_set_self _ _ _ hjlen]
  · rw [getD_set_self _ _ _ hjlen]
  · intro i hij
    exact getD_set_ne _ _ _ _ hij.symm

/-- C3: in every successful `prepare_to_send_to`, the MAC is computed
over the plaintext payload (the slot buffer as it was before the call),
and the payload is encrypted in place iff the original slot address was
not `SYNC_ADDR`; sync payloads stay in the clear but still get a MAC. -/
theorem mac_over_plaintext (c : Crypto) (q : PacketQ) (a j : Nat)
    (hsend : q.sending = none) (hsel : prep_select q a = some j)
    (hcmcap : q.cmac.cap = 6) (hprcap : q.prologue.cap = 5)
    (hjlen : j < q.que.length)
    (hmac : (c.mac (q.que.getD j default).packet.buf).length ≤ 4)
    (hmacb : ∀ b ∈ c.mac (q.que.getD j default).packet.buf, b < 256)
    (hplen : (q.que.getD j default).packet.buf.length ≤ SENT_PACKET_LEN) :
    (prepare_to_send_to c q a).1 = true ∧
    (prepare_to_send_to c q a).2.cmac.buf =
      c.mac (q.que.getD j default).packet.buf ++ [0xAA, 0xAA] ∧
    ((prepare_to_send_to c q a).2.que.getD j default).packet.buf =
      (if (q.que.getD j default).addr = (SYNC_ADDR : Int)
       then (q.que.getD j default).packet.buf
       else (c.enc (q.que.getD j default).packet.buf).map (· % 256)) := by
  rw [prepare_success c q a j hsend hsel]
  obtain ⟨-, h2, -, h4, -, -, -, -⟩ :=
    applyFreeze_state c q j (q.que.getD j default) rfl hcmcap hprcap hjlen hmac hmacb
      hplen
  refine ⟨rfl, h2, ?_⟩
  rw [h4]
  by_cases hs : (q.que.getD j default).addr = (SYNC_ADDR : Int)
  · rw [if_pos hs, if_pos hs]
  · rw [if_neg hs, if_neg hs]

theorem mac_over_plaintext_witness :
    (syncState.sending = none ∧ prep_select syncState SYNC_ADDR = some 31 ∧
     syncState.cmac.cap = 6 ∧ syncState.prologue.cap = 5 ∧
     31 < syncState.que.length ∧
     (mockCrypto.mac (syncState.que.getD 31 default).packet.buf).length ≤ 4) ∧
    ((prepare_to_send_to mockCrypto syncState SYNC_ADDR).1 = true ∧
     (prepare_to_send_to mockCrypto syncState SYNC_ADDR).2.cmac.buf =
       mockCrypto.mac (syncState.que.getD 31 default).packet.buf ++ [0xAA, 0xAA] ∧
     ((prepare_to_send_to mockCrypto syncState SYNC_ADDR).2.que.getD 31
         default).packet.buf =
       (if (syncState.que.getD 31 default).addr = (SYNC_ADDR : Int)
        then (syncState.que.getD 31 default).packet.buf
        else (mockCrypto.enc (syncState.que.getD 31 default).packet.buf).map
          (· % 256))) :=
  ⟨⟨by decide, by decide, by decide, by decide, by decide, by decide⟩,
    mac_over_plaintext mockCrypto syncState SYNC_ADDR 31 (by decide) (by decide)
      (by decide) (by decide) (by decide) (by decide) (by decide) (by decide)⟩

theorem drain_cmac : ∀ (M : List Nat) (q : PacketQ) (j : Nat),
    q.sending = some j → q.prologue.buf = [] →
    (q.que.getD j default).packet.buf = [] →
    q.cmac.buf = M → M ≠ [] →
    (drainTrace q M.length).1 = M.map (fun b => (b : Int)) := by
  intro M
  induction M with
  | nil => intro q j _ _ _ _ hne; exact absurd rfl hne
  | cons b bs ih =>
    intro q j hsend hpro hpack hcm _
    have hpack' : (q.que[j]?.getD default).packet.buf = [] := by simpa using hpack
    have hpeek : q.peek = (b : Int) := by
      simp [PacketQ.peek, hsend, ShortQ.isEmptyQ, hpro, hpack', hcm, ShortQ.peekByte]
    cases bs with
    | nil =>
      have hpop1 : (q.pop).1 = false := by
        simp [PacketQ.pop, hsend, ShortQ.isEmptyQ, hpro, hpack', hcm, ShortQ.popByte]
      show (drainTrace q (0 + 1)).1 = _
      rw [drainTrace]
      simp [hpop1, hpeek]
    | cons b2 rest =>
      have hpop : q.pop = (true, { q with cmac := q.cmac.popByte }) := by
        simp [PacketQ.pop, hsend, ShortQ.isEmptyQ, hpro, hpack', hcm, ShortQ.popByte]
      show (drainTrace q ((b2 :: rest).length + 1)).1 = _
      rw [drainTrace]
      simp only [hpop, hpeek, if_true]
      rw [ih { q with cmac := q.cmac.popByte } j hsend hpro hpack
        (by simp [ShortQ.popByte, hcm]) (by simp)]
      simp

theorem drain_packet : ∀ (D M : List Nat) (q : PacketQ) (j : Nat),
    q.sending = some j → j < q.que.length → q.prologue.buf = [] →
    (q.que.getD j default).packet.buf = D → q.cmac.buf = M → M ≠ [] →
    (drainTrace q (D.length + M.length)).1 = (D ++ M).map (fun b => (b : Int)) := by
  intro D
  induction D with
  | nil =>
    intro M q j h1 _ h3 h4 h5 h6
    simpa using drain_cmac M q j h1 h3 h4 h5 h6
  | cons d D2 ih =>
    intro M q j hsend hjlen hpro hpack hcm hMne
    have hpack' : (q.que[j]?.getD default).packet.buf = d :: D2 := by
      simpa using hpack
    have hpeek : q.peek = (d : Int) := by
      simp [PacketQ.peek, hsend, ShortQ.isEmptyQ, hpro, hpack', ShortQ.peekByte]
    have hpop : q.pop = (true, { q with que := q.que.set j { q.que.getD j default with packet := (q.que.getD j default).packet.popByte } }) := by
      simp [PacketQ.pop, hsend, ShortQ.isEmptyQ, hpro, hpack', ShortQ.popByte,
        List.getD]
    rw [show (d :: D2).length + M.length = (D2.length + M.length) + 1 from by
      simp; omega]
    rw [drainTrace]
    simp only [hpop, hpeek, if_true]
    rw [ih M { q with que := q.que.set j { q.que.getD j default with packet := (q.que.getD j default).packet.popByte } } j hsend
      (by simpa using hjlen) hpro
      (by rw [getD_set_self _ _ _ hjlen]; simp [ShortQ.popByte, hpack'])
      hcm hMne]
    simp

theorem drain_full : ∀ (P D M : List Nat) (q : PacketQ) (j : Nat),
    q.sending = some j → j < q.que.length →
    q.prologue.buf = P → (q.que.getD j default).packet.buf = D →
    q.cmac.buf = M → M ≠ [] →
    (drainTrace q (P.length + D.length + M.length)).1 =
      (P ++ D ++ M).map (fun b => (b : Int)) := by
  intro P
  induction P with
  | nil =>
    intro D M q j h1 h2 h3 h4 h5 h6
    simpa using drain_packet D M q j h1 h2 h3 h4 h5 h6
  | cons p P2 ih =>
    intro D M q j hsend hjlen hpro hpack hcm hMne
    have hpeek : q.peek = (p : Int) := by
      simp [PacketQ.peek, hsend, ShortQ.isEmptyQ, hpro, ShortQ.peekByte]
    have hpop : q.pop = (true, { q with prologue := q.prologue.popByte }) := by
      simp [PacketQ.pop, hsend, ShortQ.isEmptyQ, hpro]
    rw [show (p :: P2).length + D.length + M.length =
        (P2.length + D.length + M.length) + 1 from by simp; omega]
    rw [drainTrace]
    simp only [hpop, hpeek, if_true]
    rw [ih D M { q with prologue := q.prologue.popByte } j hsend hjlen
      (by simp [ShortQ.popByte, hpro]) hpack hcm hMne]
    simp

/-- C2: for a successfully frozen slot with plaintext payload `p` of
size `n`, the byte sequence produced by repeated peek-then-pop until pop
returns false is exactly `0xAA 0xAA 0x2D 0xD4 L`, then the payload
(encrypted in place iff the slot address was not `SYNC_ADDR`, `p`
unchanged otherwise), then the MAC bytes, then `0xAA 0xAA`; the low 7
bits of `L` are `n` plus the MAC size and its high bit is set iff the
address was `SYNC_ADDR`. -/
theorem frame_bytes (c : Crypto) (q : PacketQ) (a j : Nat)
    (hsend : q.sending = none)
    (hsel : prep_select q a = some j)
    (hjlen : j < q.que.length)
    (hcmcap : q.cmac.cap = 6) (hprcap : q.prologue.cap = 5)
    (hplen : (q.que.getD j default).packet.buf.length ≤ SENT_PACKET_LEN)
    (hmac : (c.mac (q.que.getD j default).packet.buf).length ≤ 4)
    (hmacb : ∀ b ∈ c.mac (q.que.getD j default).packet.buf, b < 256)
    (hencl : (c.enc (q.que.getD j default).packet.buf).length =
      (q.que.getD j default).packet.buf.length)
    (hencb : ∀ b ∈ c.enc (q.que.getD j default).packet.buf, b < 256) :
    (prepare_to_send_to c q a).1 = true ∧
    (drainTrace (prepare_to_send_to c q a).2
        (5 + (q.que.getD j default).packet.buf.length +
          ((c.mac (q.que.getD j default).packet.buf).length + 2))).1 =
      (([0xaa, 0xaa, 0x2d, 0xd4,
          ((q.que.getD j default).packet.buf.length +
            (c.mac (q.que.getD j default).packet.buf).length) |||
            (if (q.que.getD j default).addr = (SYNC_ADDR : Int) then 0x80 else 0)] ++
        (if (q.que.getD j default).addr = (SYNC_ADDR : Int)
         then (q.que.getD j default).packet.buf
         else c.enc (q.que.getD j default).packet.buf) ++
        (c.mac (q.que.getD j default).packet.buf ++ [0xAA, 0xAA])).map
          fun b => (b : Int)) ∧
    (((q.que.getD j default).packet.buf.length +
        (c.mac (q.que.getD j default).packet.buf).length) |||
        (if (q.que.getD j default).addr = (SYNC_ADDR : Int) then 0x80 else 0)) % 0x80 =
      (q.que.getD j default).packet.buf.length +
        (c.mac (q.que.getD j default).packet.buf).length ∧
    (0x80 ≤ (((q.que.getD j default).packet.buf.length +
        (c.mac (q.que.getD j default).packet.buf).length) |||
        (if (q.que.getD j default).addr = (SYNC_ADDR : Int) then 0x80 else 0)) ↔
      (q.que.getD j default).addr = (SYNC_ADDR : Int)) := by
  have hx : (q.que.getD j default).packet.buf.length +
      (c.mac (q.que.getD j default).packet.buf).length < 128 := by
    unfold SENT_PACKET_LEN at hplen
    omega
  rw [prepare_success c q a j hsend hsel]
  obtain ⟨h1, h2, h3, h4, -, -, h7, -⟩ :=
    applyFreeze_state c q j (q.que.getD j default) rfl hcmcap hprcap hjlen hmac
      hmacb hplen
  have hjlen' : j < (applyFreeze c q j).que.length := by rw [h7]; exact hjlen
  refine ⟨rfl, ?_, ?_, ?_⟩
  · by_cases hs : (q.que.getD j default).addr = (SYNC_ADDR : Int)
    · rw [if_pos hs, if_pos hs]
      have hD : ((applyFreeze c q j).que.getD j default).packet.buf =
          (q.que.getD j default).packet.buf := by
        rw [h4, if_pos hs]
      have hP : (applyFreeze c q j).prologue.buf =
          [0xaa, 0xaa, 0x2d, 0xd4,
            ((q.que.getD j default).packet.buf.length +
              (c.mac (q.que.getD j default).packet.buf).length) ||| 0x80] := by
        rw [h3, if_pos hs]
      have hdrain := drain_full
        [0xaa, 0xaa, 0x2d, 0xd4,
          ((q.que.getD j default).packet.buf.length +
            (c.mac (q.que.getD j default).packet.buf).length) ||| 0x80]
        (q.que.getD j default).packet.buf
        (c.mac (q.que.getD j default).packet.buf ++ [0xAA, 0xAA])
        (applyFreeze c q j) j h1 hjlen' hP hD h2 (by simp)
      rw [show 5 + (q.que.getD j default).packet.buf.length +
          ((c.mac (q.que.getD j default).packet.buf).length + 2) =
          ([0xaa, 0xaa, 0x2d, 0xd4,
            ((q.que.getD j default).packet.buf.length +
              (c.mac (q.que.getD j default).packet.buf).length) ||| 0x80] :
            List Nat).length +
          (q.que.getD j default).packet.buf.length +
          (c.mac (q.que.getD j default).packet.buf ++
            ([0xAA, 0xAA] : List Nat)).length from by
            simp only [List.length_append, List.length_cons, List.length_nil]]
      exact hdrain
    · rw [if_neg hs, if_neg hs]
      have hD : ((applyFreeze c q j).que.getD j default).packet.buf =
          c.enc (q.que.getD j default).packet.buf := by
        rw [h4, if_neg hs]
        exact map_mod_id _ hencb
      have hP : (applyFreeze c q j).prologue.buf =
          [0xaa, 0xaa, 0x2d, 0xd4,
            ((q.que.getD j default).packet.buf.length +
              (c.mac (q.que.getD j default).packet.buf).length) ||| 0] := by
        rw [h3, if_neg hs]
      have hdrain := drain_full
        [0xaa, 0xaa, 0x2d, 0xd4,
          ((q.que.getD j default).packet.buf.length +
            (c.mac (q.que.getD j default).packet.buf).length) ||| 0]
        (c.enc (q.que.getD j default).packet.buf)
        (c.mac (q.que.getD j default).packet.buf ++ [0xAA, 0xAA])
        (applyFreeze c q j) j h1 hjlen' hP hD h2 (by simp)
      rw [show 5 + (q.que.getD j default).packet.buf.length +
          ((c.mac (q.que.getD j default).packet.buf).length + 2) =
          ([0xaa, 0xaa, 0x2d, 0xd4,
            ((q.que.getD j default).packet.buf.length +
              (c.mac (q.que.getD j default).packet.buf).length) ||| 0] :
            List Nat).length +
          (c.enc (q.que.getD j default).packet.buf).length +
          (c.mac (q.que.getD j default).packet.buf ++
            ([0xAA, 0xAA] : List Nat)).length from by
            simp only [List.length_append, List.length_cons, List.length_nil,
              hencl]]
      exact hdrain
  · by_cases hs : (q.que.getD j default).addr = (SYNC_ADDR : Int)
    · rw [if_pos hs, lor_128 _ hx]
      omega
    · rw [if_neg hs, Nat.or_zero]
      exact Nat.mod_eq_of_lt hx
  · by_cases hs : (q.que.getD j default).addr = (SYNC_ADDR : Int)
    · rw [if_pos hs, lor_128 _ hx]
      exact iff_of_true (by omega) hs
    · rw [if_neg hs, Nat.or_zero]
      exact iff_of_false (by omega) hs

/-- C5: while a frame is in flight (`sending` non-null; its MAC stage is
nonempty, as every frame built by `prepare_to_send_to` is), `pop`
consumes exactly one byte from the first nonempty stage among prologue,
payload and MAC buffer in that order, returns true iff frame bytes
remain afterwards, and the pop that empties the MAC buffer clears the
framing buffers, resets the frozen slot to a free slot with empty buffer
and time 0, and releases `sending`. -/
theorem pop_one_byte (q : PacketQ) (j : Nat)
    (hsend : q.sending = some j) (hjlen : j < q.que.length)
    (hcm : q.cmac.buf ≠ []) :
    ((q.pop).1 = true ↔ remBytes (q.pop).2 ≠ 0) ∧
    remBytes (q.pop).2 + 1 = remBytes q ∧
    (q.prologue.buf ≠ [] →
      (q.pop).2 = { q with prologue := q.prologue.popByte }) ∧
    (q.prologue.buf = [] → (q.que.getD j default).packet.buf ≠ [] →
      (q.pop).2 = { q with que := q.que.set j { q.que.getD j default with packet := (q.que.getD j default).packet.popByte } }) ∧
    (q.prologue.buf = [] → (q.que.getD j default).packet.buf = [] →
      q.cmac.buf.tail ≠ [] → (q.pop).2 = { q with cmac := q.cmac.popByte }) ∧
    (q.prologue.buf = [] → (q.que.getD j default).packet.buf = [] →
      q.cmac.buf.tail = [] →
      (q.pop).1 = false ∧
      (q.pop).2.sending = none ∧
      (q.pop).2.prologue.buf = [] ∧ (q.pop).2.cmac.buf = [] ∧
      ((q.pop).2.que.getD j default).addr = -1 ∧
      ((q.pop).2.que.getD j default).time = 0 ∧
      ((q.pop).2.que.getD j default).packet.buf = []) := by
  have hcml : 0 < q.cmac.buf.length := List.length_pos.mpr hcm
  by_cases hpro : q.prologue.buf = []
  · by_cases hpack : (q.que.getD j default).packet.buf = []
    · have hpack' : (q.que[j]?.getD default).packet.buf = [] := by simpa using hpack
      obtain ⟨m, tl, hcmEq⟩ := List.exists_cons_of_ne_nil hcm
      by_cases htl : tl = []
      · subst htl
        have hpop : q.pop = (false,
            { q with
                prologue := q.prologue.clear,
                que := q.que.set j ((q.que.getD j default).clearItem),
                cmac := (q.cmac.popByte).clear,
                sending := none }) := by
          simp [PacketQ.pop, hsend, ShortQ.isEmptyQ, hpro, hpack', hcmEq,
            ShortQ.popByte, ShortQ.clear, List.getD]
        refine ⟨?_, ?_, ?_, ?_, ?_, ?_⟩
        · rw [hpop]
          simp [remBytes, ShortQ.clear]
        · rw [hpop]
          simp [remBytes, hsend, ShortQ.clear, hpro, hpack, hpack', hcmEq]
        · intro h; exact absurd hpro h
        · intro _ h; exact absurd hpack h
        · intro _ _ h
          rw [hcmEq] at h
          exact absurd rfl h
        · intro _ _ _
          rw [hpop]
          refine ⟨rfl, rfl, rfl, rfl, ?_, ?_, ?_⟩
          · rw [getD_set_self _ _ _ hjlen]; rfl
          · rw [getD_set_self _ _ _ hjlen]; rfl
          · rw [getD_set_self _ _ _ hjlen]; rfl
      · have hpop : q.pop = (true, { q with cmac := q.cmac.popByte }) := by
          simp [PacketQ.pop, hsend, ShortQ.isEmptyQ, hpro, hpack', hcmEq,
            ShortQ.popByte, htl]
        refine ⟨?_, ?_, ?_, ?_, ?_, ?_⟩
        · rw [hpop]
          simp only [remBytes, ShortQ.popByte]
          simp [hsend, hpack, hcmEq, htl]
        · rw [hpop]
          simp only [remBytes, ShortQ.popByte]
          simp [hsend, hpack, hpack', hcmEq]
          omega
        · intro h; exact absurd hpro h
        · intro _ h; exact absurd hpack h
        · intro _ _ _
          rw [hpop]
        · intro _ _ h
          rw [hcmEq] at h
          exact absurd h htl
    · have hne := hpack
      obtain ⟨d, rest, hpackEq⟩ := List.exists_cons_of_ne_nil hpack
      have hpack' : (q.que[j]?.getD default).packet.buf = d :: rest := by
        simpa using hpackEq
      have hpop : q.pop = (true, { q with que := q.que.set j { q.que.getD j default with packet := (q.que.getD j default).packet.popByte } }) := by
        simp [PacketQ.pop, hsend, ShortQ.isEmptyQ, hpro, hpack', ShortQ.popByte,
          List.getD]
      refine ⟨?_, ?_, ?_, ?_, ?_, ?_⟩
      · rw [hpop]
        simp only [remBytes, ShortQ.popByte]
        simp [hsend, getD_set_self' _ _ _ hjlen, hpack', hcm]
      · rw [hpop]
        simp only [remBytes, ShortQ.popByte]
        simp [hsend, getD_set_self' _ _ _ hjlen, hpack']
        omega
      · intro h; exact absurd hpro h
      · intro _ _; exact congrArg Prod.snd hpop
      · intro _ h; exact absurd h hne
      · intro _ h; exact absurd h hne
  · obtain ⟨p, P2, hproEq⟩ := List.exists_cons_of_ne_nil hpro
    have hpop : q.pop = (true, { q with prologue := q.prologue.popByte }) := by
      simp [PacketQ.pop, hsend, ShortQ.isEmptyQ, hproEq]
    refine ⟨?_, ?_, ?_, ?_, ?_, ?_⟩
    · rw [hpop]
      simp only [remBytes, ShortQ.popByte]
      simp [hsend]
      exact fun _ _ => hcm
    · rw [hpop]
      simp only [remBytes, ShortQ.popByte]
      simp [hsend, hproEq]
      omega
    · intro _; exact congrArg Prod.snd hpop
    · intro h; exact absurd h hpro
    · intro h; exact absurd h hpro
    · intro h; exact absurd h hpro

theorem pop_one_byte_witness :
    (frozenStaleQ.sending = some 31 ∧ 31 < frozenStaleQ.que.length ∧
     frozenStaleQ.cmac.buf ≠ []) ∧
    (((frozenStaleQ.pop).1 = true ↔ remBytes (frozenStaleQ.pop).2 ≠ 0) ∧
     remBytes (frozenStaleQ.pop).2 + 1 = remBytes frozenStaleQ ∧
     (frozenStaleQ.prologue.buf ≠ [] →
       (frozenStaleQ.pop).2 = { frozenStaleQ with prologue := frozenStaleQ.prologue.popByte }) ∧
     (frozenStaleQ.prologue.buf = [] →
       (frozenStaleQ.que.getD 31 default).packet.buf ≠ [] →
       (frozenStaleQ.pop).2 = { frozenStaleQ with que := frozenStaleQ.que.set 31 { frozenStaleQ.que.getD 31 default with packet := (frozenStaleQ.que.getD 31 default).packet.popByte } }) ∧
     (frozenStaleQ.prologue.buf = [] →
       (frozenStaleQ.que.getD 31 default).packet.buf = [] →
       frozenStaleQ.cmac.buf.tail ≠ [] →
       (frozenStaleQ.pop).2 = { frozenStaleQ with cmac := frozenStaleQ.cmac.popByte }) ∧
     (frozenStaleQ.prologue.buf = [] →
       (frozenStaleQ.que.getD 31 default).packet.buf = [] →
       frozenStaleQ.cmac.buf.tail = [] →
       (frozenStaleQ.pop).1 = false ∧
       (frozenStaleQ.pop).2.sending = none ∧
       (frozenStaleQ.pop).2.prologue.buf = [] ∧ (frozenStaleQ.pop).2.cmac.buf = [] ∧
       ((frozenStaleQ.pop).2.que.getD 31 default).addr = -1 ∧
       ((frozenStaleQ.pop).2.que.getD 31 default).time = 0 ∧
       ((frozenStaleQ.pop).2.que.getD 31 default).packet.buf = [])) :=
  ⟨⟨by decide, by decide, by decide⟩,
    pop_one_byte frozenStaleQ 31 (by decide) (by decide) (by decide)⟩

theorem frame_bytes_witness :
    (oneSlotState.sending = none ∧ prep_select oneSlotState 5 = some 31 ∧
     31 < oneSlotState.que.length ∧ oneSlotState.cmac.cap = 6 ∧
     oneSlotState.prologue.cap = 5 ∧
     (oneSlotState.que.getD 31 default).packet.buf.length ≤ SENT_PACKET_LEN ∧
     (mockCrypto.mac (oneSlotState.que.getD 31 default).packet.buf).length ≤ 4 ∧
     (mockCrypto.enc (oneSlotState.que.getD 31 default).packet.buf).length =
       (oneSlotState.que.getD 31 default).packet.buf.length) ∧
    ((prepare_to_send_to mockCrypto oneSlotState 5).1 = true ∧
     (drainTrace (prepare_to_send_to mockCrypto oneSlotState 5).2
         (5 + (oneSlotState.que.getD 31 default).packet.buf.length +
           ((mockCrypto.mac (oneSlotState.que.getD 31 default).packet.buf).length + 2))).1 =
       (([0xaa, 0xaa, 0x2d, 0xd4,
           ((oneSlotState.que.getD 31 default).packet.buf.length +
             (mockCrypto.mac (oneSlotState.que.getD 31 default).packet.buf).length) |||
             (if (oneSlotState.que.getD 31 default).addr = (SYNC_ADDR : Int) then 0x80 else 0)] ++
         (if (oneSlotState.que.getD 31 default).addr = (SYNC_ADDR : Int)
          then (oneSlotState.que.getD 31 default).packet.buf
          else mockCrypto.enc (oneSlotState.que.getD 31 default).packet.buf) ++
         (mockCrypto.mac (oneSlotState.que.getD 31 default).packet.buf ++ [0xAA, 0xAA])).map
           fun b => (b : Int)) ∧
     (((oneSlotState.que.getD 31 default).packet.buf.length +
         (mockCrypto.mac (oneSlotState.que.getD 31 default).packet.buf).length) |||
         (if (oneSlotState.que.getD 31 default).addr = (SYNC_ADDR : Int) then 0x80 else 0)) % 0x80 =
       (oneSlotState.que.getD 31 default).packet.buf.length +
         (mockCrypto.mac (oneSlotState.que.getD 31 default).packet.buf).length ∧
     (0x80 ≤ (((oneSlotState.que.getD 31 default).packet.buf.length +
         (mockCrypto.mac (oneSlotState.que.getD 31 default).packet.buf).length) |||
         (if (oneSlotState.que.getD 31 default).addr = (SYNC_ADDR : Int) then 0x80 else 0)) ↔
       (oneSlotState.que.getD 31 default).addr = (SYNC_ADDR : Int))) :=
  ⟨⟨by decide, by decide, by decide, by decide, by decide, by decide, by decide,
     by decide⟩,
    frame_bytes mockCrypto oneSlotState 5 31 (by decide) (by decide) (by decide)
      (by decide) (by decide) (by decide) (by decide) (by decide) (by decide)
      (by decide)⟩

theorem distinctOpen_set (que : List Item) (j : Nat) (it' : Item)
    (h : distinctOpen que)
    (hc : ¬ openSlot it' ∨ it'.addr = (que.getD j default).addr ∨
      it'.addr = (SYNC_ADDR : Int) ∨
      (∀ i, i < que.length → i ≠ j → openSlot (que.getD i default) →
        (que.getD i default).addr ≠ it'.addr)) :
    distinctOpen (que.set j it') := by
  intro i hi k hk hik oi ok hsync
  rw [List.length_set] at hi hk
  by_cases hij : i = j
  · subst hij
    rw [getD_set_self _ _ _ hi] at oi hsync ⊢
    rw [getD_set_ne _ _ _ _ hik] at ok ⊢
    rcases hc with hcl | hkeep | hsy | hg
    · exact absurd oi hcl
    · have oj : openSlot (que.getD i default) := ⟨hkeep ▸ oi.1, hkeep ▸ oi.2⟩
      rw [hkeep]
      exact h i hi k hk hik oj ok (hkeep ▸ hsync)
    · exact absurd hsy hsync
    · exact Ne.symm (hg k hk (Ne.symm hik) ok)
  · by_cases hkj : k = j
    · subst hkj
      rw [getD_set_ne _ _ _ _ (Ne.symm hij)] at oi hsync ⊢
      rw [getD_set_self _ _ _ hk] at ok ⊢
      rcases hc with hcl | hkeep | hsy | hg
      · exact absurd ok hcl
      · have oj : openSlot (que.getD k default) := ⟨hkeep ▸ ok.1, hkeep ▸ ok.2⟩
        rw [hkeep]
        exact h i hi k hk hik oi oj hsync
      · rw [hsy]
        exact hsync
      · exact hg i hi hij oi
    · rw [getD_set_ne _ _ _ _ (Ne.symm hij)] at oi hsync ⊢
      rw [getD_set_ne _ _ _ _ (Ne.symm hkj)] at ok ⊢
      exact h i hi k hk hik oi ok hsync

/-- C4 counterexample: starting from the fresh queue, reserving for
address 5 and then reserving for address 5 again with a request of 255
bytes (which the slot cannot accommodate) leaves two open slots (30 and
31) both bound to address 5: the distinctness invariant claimed for all
reachable states is violated. -/
theorem distinct_open_violated :
    (dupState.que.getD 30 default).addr = 5 ∧
    (dupState.que.getD 31 default).addr = 5 ∧
    openSlot (dupState.que.getD 30 default) ∧
    openSlot (dupState.que.getD 31 default) ∧
    ¬ distinctOpen dupState.que :=
  ⟨by decide, by decide, by decide, by decide,
    fun h => (h 30 (by decide) 31 (by decide) (by decide) (by decide) (by decide)
      (by decide)) (by decide)⟩

/-- C4 (amended): open-slot distinctness is preserved by
`prepare_to_send_to` and `pop` unconditionally (`peek` does not change
state), and by `want_to_send_for` provided the requested address is SYNC
or no open slot already holds the stored form of the requested address;
without that proviso a claim under rule 2 can create a second open slot
for the same address (see the counterexample). -/
theorem distinct_open_preserved (c : Crypto) (q : PacketQ)
    (h : distinctOpen q.que) :
    (∀ addr, distinctOpen (prepare_to_send_to c q addr).2.que) ∧
    distinctOpen (PacketQ.pop q).2.que ∧
    (∀ addr bytes t, (toInt8 (addr % 256) = (SYNC_ADDR : Int) ∨
        (∀ i, i < q.que.length → openSlot (q.que.getD i default) →
          (q.que.getD i default).addr ≠ toInt8 (addr % 256))) →
      distinctOpen (want_to_send_for q addr bytes t).2.que) := by
  refine ⟨?_, ?_, ?_⟩
  · intro addr
    unfold prepare_to_send_to
    split
    · exact h
    · cases hsel : prep_select q addr with
      | none => exact h
      | some j =>
        simp only
        unfold applyFreeze
        simp only
        apply distinctOpen_set _ _ _ h
        exact Or.inl (fun o => o.2 rfl)
  · unfold PacketQ.pop
    cases hq : q.sending with
    | none => exact h
    | some j =>
      simp only
      split
      · exact h
      · split
        · apply distinctOpen_set _ _ _ h
          exact Or.inr (Or.inl rfl)
        · split
          · split
            · apply distinctOpen_set _ _ _ h
              exact Or.inl (fun o => o.1 rfl)
            · exact h
          · split
            · apply distinctOpen_set _ _ _ h
              exact Or.inl (fun o => o.1 rfl)
            · exact h
  · intro addr bytes t hguard
    unfold want_to_send_for
    simp only
    rcases wtsfGo_que_cases (addr % 256) (bytes % 256) t q.packet_max_age q.que
      PACKET_QUEUE_LEN with hcase | ⟨j', _, hcase⟩
    · rw [hcase]; exact h
    · rw [hcase]
      apply distinctOpen_set _ _ _ h
      rcases hguard with hsy | hg
      · exact Or.inr (Or.inr (Or.inl hsy))
      · exact Or.inr (Or.inr (Or.inr (fun i hi _ oi => hg i hi oi)))

theorem distinct_open_preserved_witness :
    distinctOpen (PacketQ.init 60).que ∧
    ((∀ addr, distinctOpen (prepare_to_send_to mockCrypto (PacketQ.init 60) addr).2.que) ∧
     distinctOpen (PacketQ.pop (PacketQ.init 60)).2.que ∧
     (∀ addr bytes t, (toInt8 (addr % 256) = (SYNC_ADDR : Int) ∨
         (∀ i, i < (PacketQ.init 60).que.length →
           openSlot ((PacketQ.init 60).que.getD i default) →
           ((PacketQ.init 60).que.getD i default).addr ≠ toInt8 (addr % 256))) →
       distinctOpen (want_to_send_for (PacketQ.init 60) addr bytes t).2.que)) :=
  ⟨by decide, distinct_open_preserved mockCrypto (PacketQ.init 60) (by decide)⟩

end HR20